import Mathlib

/-!
Verification development for the ASI MS-2000-500-CP stage-controller adaptor
(`asi_MS_2000_500_CP.py`).

The Python source is shallowly embedded:
* numeric values are exact rationals (`ℚ`); Python's `round` builtin is
  modelled by `pyRound` (round half to even) and `'%0.6f'` formatting of a
  value that is exactly representable with six decimals by `fmt6`;
* the serial device is modelled as an *echoing* device: it stores exactly the
  values written to it and answers queries with what it stores (this is the
  explicit assumption of the spec's round-trip properties);
* every operation of the adaptor is a function from a system state `Sys`
  (controller fields + device registers + the trace of commands written to
  the transport) to `Except (Err × Sys) Sys`: a failing Python `assert`
  stops execution and leaves the object in the state reached so far, which
  the embedding returns inside the error;
* the response codec (`_send` with `parse_axes=True`) is embedded at the
  character level on `List Char`.
-/

/-- Python's builtin `round` to an integer: round half to even. -/
def pyRound (q : ℚ) : ℤ :=
  if q - ⌊q⌋ < 1/2 then ⌊q⌋
  else if 1/2 < q - ⌊q⌋ then ⌊q⌋ + 1
  else if 2 ∣ ⌊q⌋ then ⌊q⌋ else ⌊q⌋ + 1

/-- Rounding to `k` decimal digits (Python's `round(x, k)`). -/
def roundTo (k : ℕ) (x : ℚ) : ℚ := (pyRound (x * 10 ^ k) : ℚ) / 10 ^ k

/-- Source `round(x, 6)`, as used for velocities. -/
def round6 (x : ℚ) : ℚ := roundTo 6 x

/-- Source `round(x, 3)`, as used for move targets ("round to nm"). -/
def round3 (x : ℚ) : ℚ := roundTo 3 x

/-- The value transmitted by formatting with `'%0.6f'` and re-parsed as a
float on the way back.  All values the adaptor formats are exactly
representable with six decimals, for which formatting is exact. -/
def fmt6 (x : ℚ) : ℚ := (pyRound (x * 10 ^ 6) : ℚ) / 10 ^ 6

theorem pyRound_intCast (n : ℤ) : pyRound (n : ℚ) = n := by
  unfold pyRound
  norm_num

theorem floor_le_pyRound (x : ℚ) : ⌊x⌋ ≤ pyRound x := by
  unfold pyRound
  split
  · exact le_refl _
  · split
    · exact le_of_lt (lt_add_one _)
    · split
      · exact le_refl _
      · exact le_of_lt (lt_add_one _)

theorem pyRound_le_ceil (x : ℚ) : pyRound x ≤ ⌈x⌉ := by
  have hfc : (⌊x⌋ : ℚ) ≤ x := Int.floor_le x
  have hbase : ⌊x⌋ ≤ ⌈x⌉ := Int.floor_le_ceil x
  have hstep : ∀ h : ¬ x - ⌊x⌋ < 1/2, ⌊x⌋ + 1 ≤ ⌈x⌉ := by
    intro h
    have hlt : (⌊x⌋ : ℚ) < x := by
      push_neg at h
      nlinarith
    have : ⌊x⌋ < ⌈x⌉ := by
      have hxc : x ≤ (⌈x⌉ : ℚ) := Int.le_ceil x
      exact_mod_cast lt_of_lt_of_le hlt hxc
    omega
  unfold pyRound
  split
  · exact hbase
  · next h =>
    split
    · next h2 => exact hstep (by push_neg; linarith)
    · split
      · exact hbase
      · exact hstep h

/-- An integer lower bound on a value is a lower bound on its rounding. -/
theorem le_pyRound_of_le {a : ℤ} {x : ℚ} (h : (a : ℚ) ≤ x) : a ≤ pyRound x :=
  le_trans (Int.le_floor.mpr h) (floor_le_pyRound x)

/-- An integer upper bound on a value is an upper bound on its rounding. -/
theorem pyRound_le_of_le {b : ℤ} {x : ℚ} (h : x ≤ (b : ℚ)) : pyRound x ≤ b :=
  le_trans (pyRound_le_ceil x) (Int.ceil_le.mpr h)

/-- Rounding moves a value by at most one half. -/
theorem abs_pyRound_sub_le (x : ℚ) : |(pyRound x : ℚ) - x| ≤ 1/2 := by
  have hf : (⌊x⌋ : ℚ) ≤ x := Int.floor_le x
  have hf1 : x < (⌊x⌋ : ℚ) + 1 := Int.lt_floor_add_one x
  unfold pyRound
  split
  · next h => rw [abs_le]; constructor <;> linarith
  · next h =>
    push_neg at h
    split
    · next h2 => push_cast; rw [abs_le]; constructor <;> linarith
    · split <;> (push_cast; rw [abs_le]; constructor <;> linarith)

/-- A value exactly representable with six decimal digits is transmitted
unchanged by `'%0.6f'` formatting. -/
theorem fmt6_eq_self {x : ℚ} {k : ℤ} (h : x * 10 ^ 6 = (k : ℚ)) : fmt6 x = x := by
  unfold fmt6
  rw [h, pyRound_intCast, ← h]
  field_simp

/-- Formatting after `round(·, 6)` is the identity: the wire carries exactly
the rounded velocity value. -/
theorem fmt6_round6 (x : ℚ) : fmt6 (round6 x) = round6 x := by
  apply fmt6_eq_self (k := pyRound (x * 10 ^ 6))
  unfold round6 roundTo
  field_simp

/-- Integer values are transmitted unchanged by `'%0.6f'` formatting. -/
theorem fmt6_intCast (k : ℤ) : fmt6 (k : ℚ) = (k : ℚ) := by
  apply fmt6_eq_self (k := k * 10 ^ 6)
  push_cast
  ring

/-- An integer number of micrometers converted to the `1e-6`-scaled wire unit
is transmitted unchanged by `'%0.6f'` formatting. -/
theorem fmt6_micro (k : ℤ) : fmt6 ((1 / 1000000) * (k : ℚ)) = (1 / 1000000) * (k : ℚ) := by
  apply fmt6_eq_self (k := k)
  ring

/-!
## Response codec (`_send` with `parse_axes=True`)

`response.split()` splits on runs of whitespace dropping empty tokens,
`a.split('=')` splits a token at every `'='` keeping empty parts, and
`float(value)` parses a decimal literal.  The embedding works on `List Char`.
-/

/-- Python's `str.split()` with no argument: split on runs of whitespace,
dropping empty tokens.  `acc` holds the current word reversed. -/
def wordsAux : List Char → List Char → List (List Char)
  | [], acc => if acc = [] then [] else [acc.reverse]
  | c :: cs, acc =>
      if c.isWhitespace then
        if acc = [] then wordsAux cs [] else acc.reverse :: wordsAux cs []
      else wordsAux cs (c :: acc)

/-- Source `response.split()`. -/
def pyWords (s : List Char) : List (List Char) := wordsAux s []

/-- Python's `token.split('=')`: split at every `'='`, keeping empty parts. -/
def splitEqAux : List Char → List Char → List (List Char)
  | [], acc => [acc.reverse]
  | c :: cs, acc =>
      if c = '=' then acc.reverse :: splitEqAux cs [] else splitEqAux cs (c :: acc)

/-- Source `token.split('=')`. -/
def splitEq (t : List Char) : List (List Char) := splitEqAux t []

/-- Value of a digit string (most significant digit first). -/
def digitsToNat (l : List Char) : ℕ := l.foldl (fun n c => 10 * n + (c.toNat - 48)) 0

/-- Source `float(value)` restricted to plain decimal literals (optional sign,
digits, at most one decimal point) — the only shapes the device produces. -/
def parseFloatQ (s : List Char) : Option ℚ :=
  let (sgn, cs) : ℚ × List Char :=
    match s with
    | '-' :: rest => (-1, rest)
    | '+' :: rest => (1, rest)
    | _ => (1, s)
  let ip := cs.takeWhile (· ≠ '.')
  match cs.dropWhile (· ≠ '.') with
  | [] =>
      if ip.all Char.isDigit ∧ ip ≠ [] then some (sgn * digitsToNat ip) else none
  | '.' :: fp =>
      if ip.all Char.isDigit ∧ fp.all Char.isDigit ∧ (ip ≠ [] ∨ fp ≠ []) then
        some (sgn * ((digitsToNat ip : ℚ) + (digitsToNat fp : ℚ) / 10 ^ fp.length))
      else none
  | _ => none

/-- Source `axis, value = a.split('=')` followed by `float(value)`: fails (Python
`ValueError`) unless the token has exactly one `'='` and a numeric value. -/
def parseToken (t : List Char) : Option (List Char × ℚ) :=
  match splitEq t with
  | [a, v] => (parseFloatQ v).map (fun q => (a, q))
  | _ => none

instance exceptDecEq {ε α : Type} [DecidableEq ε] [DecidableEq α] :
    DecidableEq (Except ε α) := fun x y =>
  match x, y with
  | .error a, .error b =>
      if h : a = b then isTrue (by rw [h]) else isFalse (fun hh => h (by injection hh))
  | .ok a, .ok b =>
      if h : a = b then isTrue (by rw [h]) else isFalse (fun hh => h (by injection hh))
  | .error _, .ok _ => isFalse (fun hh => Except.noConfusion hh)
  | .ok _, .error _ => isFalse (fun hh => Except.noConfusion hh)

/-- Errors of the adaptor (the spec's taxonomy; in the source each is a
failing `assert` or a raised builtin exception). -/
inductive Err where
  | range
  | verification
  | protocol
  | motionTolerance
  | assertion
deriving DecidableEq, Repr

/-- The `parse_axes` branch of `_send`: split the response on whitespace,
split each token on `'='`, collect axis ids and float values, then require
`tuple(axes) == self.axes`; on success the value tuple is returned. -/
def parseAxesResp (axes : List (List Char)) (resp : List Char) : Except Err (List ℚ) :=
  match (pyWords resp).mapM parseToken with
  | none => .error .protocol
  | some pairs =>
      if pairs.map Prod.fst = axes then .ok (pairs.map Prod.snd)
      else .error .protocol

/-!
## Data model

`Cfg` holds the immutable per-axis configuration built by `__init__`;
`Controller` the mutable object fields; `Device` the echoing device's
registers; `Sys` bundles both with the trace of commands written to the
transport (each `_send` call appends exactly one command).
-/

/-- Source `TTL X` input modes (`code2mode = {'0': 'disabled', '10': 'toggle_ttl_out'}`). -/
inductive TtlInMode where
  | disabled
  | toggle_ttl_out
deriving DecidableEq, Repr

/-- Source `TTL Y` output modes (`code2mode = {'0': 'low', '1': 'high', '9': 'pwm'}`). -/
inductive TtlOutMode where
  | low
  | high
  | pwm
deriving DecidableEq, Repr

/-- The four named illumination states of `set_pwm_state`. -/
inductive PwmState where
  | off
  | on
  | pwm
  | external
deriving DecidableEq, Repr

/-- Lead-screw classes (`screw2value` keys). -/
inductive LeadScrew where
  | UC
  | SC
  | S
  | F
  | XF
deriving DecidableEq, Repr

/-- Source `screw2value`: pitch (mm), resolution (nm), max speed (mm/s). -/
def screw2value : LeadScrew → ℚ × ℚ × ℚ
  | .UC => (25.40, 88.0, 28.0)
  | .SC => (12.70, 44.0, 14.0)
  | .S  => (6.350, 22.0, 7.00)
  | .F  => (1.590, 5.50, 1.75)
  | .XF => (0.653, 2.20, 0.70)

/-- One command line written to the transport, at the semantic level (the
values carried are the ones the source interpolates into the ASCII line). -/
inductive Cmd where
  | ttlInSet (code : List Char)
  | ttlInQ
  | ttlOutSet (code : List Char)
  | ttlOutQ
  | velSet (wire : List ℚ)
  | velQ
  | accSet (wire : List ℚ)
  | accQ
  | stlSet (wire : List ℚ)
  | stlQ
  | prcSet (wire : List ℚ)
  | prcQ
  | posQ
  | moveTo (counts : List ℤ)
  | statusQ
  | ledSet (v : ℤ)
  | ledQ
deriving DecidableEq, Repr

/-- Immutable per-axis configuration built by `__init__`. -/
structure Cfg where
  axes : List (List Char)
  max_velocity_mmps : List ℚ
  min_acceleration_ms : List ℚ
  max_acceleration_ms : List ℚ
  max_settle_time_ms : List ℚ
  tol_settle_time_ms : List ℚ
  min_precision_um : List ℚ
  max_precision_um : List ℚ
  min_position_um : List ℚ
  max_position_um : List ℚ
  encoder_counts_per_um : List ℚ
deriving DecidableEq, Repr

/-- The configuration `__init__` builds from its arguments (fixed
acceleration/settle/precision limits, mm ranges converted to μm, default
encoder scale 10 counts/μm). -/
def mkCfg (axes : List (List Char)) (lead_screws : List LeadScrew)
    (axes_min_mm axes_max_mm : List ℚ) : Cfg :=
  { axes := axes
    max_velocity_mmps := lead_screws.map (fun sc => (screw2value sc).2.2)
    min_acceleration_ms := axes.map (fun _ => 25)
    max_acceleration_ms := axes.map (fun _ => 1000)
    max_settle_time_ms := axes.map (fun _ => 1000)
    tol_settle_time_ms := axes.map (fun _ => 1)
    min_precision_um := axes.map (fun _ => 1)
    max_precision_um := axes.map (fun _ => 1000000)
    min_position_um := axes_min_mm.map (fun v => 1000 * v)
    max_position_um := axes_max_mm.map (fun v => 1000 * v)
    encoder_counts_per_um := axes.map (fun _ => 10) }

/-- Mutable fields of the `Controller` object. -/
structure Controller where
  velocity_mmps : List ℚ
  acceleration_ms : List ℚ
  settle_time_ms : List ℚ
  precision_um : List ℚ
  position_um : List ℚ
  moving : Bool
  target_move_um : List ℚ
  ttl_in_mode : TtlInMode
  ttl_out_mode : TtlOutMode
  pwm_intensity : ℤ
  state : Option PwmState
deriving DecidableEq, Repr

/-- Registers of the echoing device: it stores exactly the wire values
written to it and answers queries from this store.  `busyLeft` is the number
of `/` status polls that still answer "busy" before `N` is reported. -/
structure Device where
  vel : List ℚ
  acc : List ℚ
  stl : List ℚ
  prc : List ℚ
  posCounts : List ℤ
  ttlInCode : List Char
  ttlOutCode : List Char
  led : ℤ
  busyLeft : ℕ
deriving DecidableEq, Repr

/-- Whole-system state: controller fields, device registers, and the trace
of command lines written to the transport. -/
structure Sys where
  ctrl : Controller
  dev : Device
  sent : List Cmd
deriving DecidableEq, Repr

/-- One `_send`: exactly one command line is written to the transport. -/
def send (c : Cmd) (s : Sys) : Sys := { s with sent := s.sent ++ [c] }

/-!
## TTL mode registers (`_get/_set_ttl_in_mode`, `_get/_set_ttl_out_mode`)
-/

/-- Source `mode2code = {'disabled':'0', 'toggle_ttl_out':'10'}`. -/
def ttlInMode2code : TtlInMode → List Char
  | .disabled => ['0']
  | .toggle_ttl_out => ['1', '0']

/-- Source `code2mode = {'0': 'disabled', '10': 'toggle_ttl_out'}`; any other code
is a `KeyError`. -/
def ttlInCode2mode : List Char → Option TtlInMode
  | ['0'] => some .disabled
  | ['1', '0'] => some .toggle_ttl_out
  | _ => none

/-- Source `mode2code = {'low':'0', 'high':'1', 'pwm':'9'}`. -/
def ttlOutMode2code : TtlOutMode → List Char
  | .low => ['0']
  | .high => ['1']
  | .pwm => ['9']

/-- Source `code2mode = {'0': 'low', '1': 'high', '9': 'pwm'}`. -/
def ttlOutCode2mode : List Char → Option TtlOutMode
  | ['0'] => some .low
  | ['1'] => some .high
  | ['9'] => some .pwm
  | _ => none

/-- Source `_get_ttl_in_mode`: query `TTL X?`, decode the code via `code2mode`
(unknown code = `KeyError`, a protocol failure), record and return the mode. -/
def get_ttl_in_mode (s : Sys) : Except (Err × Sys) (Sys × TtlInMode) :=
  let s := send .ttlInQ s
  match ttlInCode2mode s.dev.ttlInCode with
  | none => .error (.protocol, s)
  | some m => .ok ({ s with ctrl.ttl_in_mode := m }, m)

/-- Source `_set_ttl_in_mode`: write `TTL X=<code>`, then re-query and assert the
device reports the requested mode. -/
def set_ttl_in_mode (m : TtlInMode) (s : Sys) : Except (Err × Sys) Sys :=
  let s := send (.ttlInSet (ttlInMode2code m)) s
  let s := { s with dev.ttlInCode := ttlInMode2code m }
  match get_ttl_in_mode s with
  | .error e => .error e
  | .ok (s, got) => if got = m then .ok s else .error (.verification, s)

/-- Source `_get_ttl_out_mode`: query `TTL Y?` and decode via `code2mode`. -/
def get_ttl_out_mode (s : Sys) : Except (Err × Sys) (Sys × TtlOutMode) :=
  let s := send .ttlOutQ s
  match ttlOutCode2mode s.dev.ttlOutCode with
  | none => .error (.protocol, s)
  | some m => .ok ({ s with ctrl.ttl_out_mode := m }, m)

/-- Source `_set_ttl_out_mode`: write `TTL Y=<code>`, then re-query and assert the
device reports the requested mode. -/
def set_ttl_out_mode (m : TtlOutMode) (s : Sys) : Except (Err × Sys) Sys :=
  let s := send (.ttlOutSet (ttlOutMode2code m)) s
  let s := { s with dev.ttlOutCode := ttlOutMode2code m }
  match get_ttl_out_mode s with
  | .error e => .error e
  | .ok (s, got) => if got = m then .ok s else .error (.verification, s)

/-- The register pair each named state selects (the four `if` branches of
`set_pwm_state`). -/
def stateTable : PwmState → TtlInMode × TtlOutMode
  | .off => (.disabled, .low)
  | .on => (.disabled, .high)
  | .pwm => (.disabled, .pwm)
  | .external => (.toggle_ttl_out, .low)

/-- Source `set_pwm_state`: set the input mode, then the output mode, each with its
own verify, then record the named state. -/
def set_pwm_state (st : PwmState) (s : Sys) : Except (Err × Sys) Sys :=
  match set_ttl_in_mode (stateTable st).1 s with
  | .error e => .error e
  | .ok s =>
      match set_ttl_out_mode (stateTable st).2 s with
      | .error e => .error e
      | .ok s => .ok { s with ctrl.state := some st }

/-- Source `close`: force the illumination state to `off` unless it is already
recorded as `off`, then release the port. -/
def close (s : Sys) : Except (Err × Sys) Sys :=
  if s.ctrl.state ≠ some .off then set_pwm_state .off s else .ok s

/-!
## PWM intensity (`get_pwm_intensity`, `set_pwm_intensity`)
-/

/-- Source `get_pwm_intensity`: query `LED X?` (non-standard `X=val` answer) and
record the integer intensity. -/
def get_pwm_intensity (s : Sys) : Sys × ℤ :=
  let s := send .ledQ s
  ({ s with ctrl.pwm_intensity := s.dev.led }, s.dev.led)

/-- Source `set_pwm_intensity`: assert `1 <= intensity <= 99`, write `LED X=<v>`,
then re-query and assert the device reports the requested intensity. -/
def set_pwm_intensity (intensity : ℤ) (s : Sys) : Except (Err × Sys) Sys :=
  if 1 ≤ intensity ∧ intensity ≤ 99 then
    let s := send (.ledSet intensity) s
    let s := { s with dev.led := intensity }
    let (s, got) := get_pwm_intensity s
    if got = intensity then .ok s else .error (.verification, s)
  else .error (.range, s)

/-!
## Parameter store (`_get/_set_velocity`, `_acceleration`, `_settle_time`,
`_precision`)

Each set operation asserts the tuple length, asserts every entry is an `int`
or a `float` (note: this assertion *rejects* `None` entries, although the
loop below it contains an `if v is None` branch), resolves `None` entries
from the current state, range-checks (velocity before rounding, the other
three after rounding), sends one combined command, then re-queries and
verifies.
-/

/-- Source `v is None` resolution: `None` entries take the current value.  (Dead
code in the source for the four parameter setters, reachable in `move_um`.) -/
def resolveKeep (args : List (Option ℚ)) (cur : List ℚ) : List ℚ :=
  (args.zip cur).map (fun p => p.1.getD p.2)

/-- The per-index body of `_set_velocity`'s loop: assert
`0 <= v <= max_velocity_mmps[i]`, then `round(v, 6)`.  Returns `none` at the
first failing assert (a range error). -/
def procVel : List ℚ → List ℚ → Option (List ℚ)
  | [], [] => some []
  | m :: ms, v :: vs =>
      if 0 ≤ v ∧ v ≤ m then (procVel ms vs).map (fun r => round6 v :: r) else none
  | _, _ => none

/-- The per-index body of the `_set_acceleration` / `_set_settle_time` /
`_set_precision` loops: `round(v)`, then assert `lo <= round(v) <= hi`
against the zipped per-axis bound pair.  Returns `none` at the first failing
assert (a range error). -/
def procRoundCheck : List (ℚ × ℚ) → List ℚ → Option (List ℚ)
  | [], [] => some []
  | b :: bs, v :: vs =>
      if b.1 ≤ (pyRound v : ℚ) ∧ (pyRound v : ℚ) ≤ b.2 then
        (procRoundCheck bs vs).map (fun r => ((pyRound v : ℤ) : ℚ) :: r)
      else none
  | _, _ => none

/-- Source `_get_velocity`: query `S <axes>?` and record the axis-keyed tuple. -/
def get_velocity (s : Sys) : Sys :=
  let s := send .velQ s
  { s with ctrl.velocity_mmps := s.dev.vel }

/-- Source `_set_velocity`. -/
def set_velocity (cfg : Cfg) (velocity_mmps : List (Option ℚ)) (s : Sys) :
    Except (Err × Sys) Sys :=
  if velocity_mmps.length = cfg.axes.length then
    if velocity_mmps.all (fun v => v.isSome) then
      match procVel cfg.max_velocity_mmps (resolveKeep velocity_mmps s.ctrl.velocity_mmps) with
      | none => .error (.range, s)
      | some rounded =>
          let wire := rounded.map fmt6
          let s := send (.velSet wire) s
          let s := { s with dev.vel := wire }
          let s := get_velocity s
          if s.ctrl.velocity_mmps = rounded then .ok s else .error (.verification, s)
    else .error (.assertion, s)
  else .error (.assertion, s)

/-- Source `_get_acceleration`: query `AC <axes>?` and record the tuple. -/
def get_acceleration (s : Sys) : Sys :=
  let s := send .accQ s
  { s with ctrl.acceleration_ms := s.dev.acc }

/-- Source `_set_acceleration`. -/
def set_acceleration (cfg : Cfg) (acceleration_ms : List (Option ℚ)) (s : Sys) :
    Except (Err × Sys) Sys :=
  if acceleration_ms.length = cfg.axes.length then
    if acceleration_ms.all (fun v => v.isSome) then
      match procRoundCheck (cfg.min_acceleration_ms.zip cfg.max_acceleration_ms)
          (resolveKeep acceleration_ms s.ctrl.acceleration_ms) with
      | none => .error (.range, s)
      | some rounded =>
          let wire := rounded.map fmt6
          let s := send (.accSet wire) s
          let s := { s with dev.acc := wire }
          let s := get_acceleration s
          if s.ctrl.acceleration_ms = rounded then .ok s else .error (.verification, s)
    else .error (.assertion, s)
  else .error (.assertion, s)

/-- Source `_get_settle_time`: query `WT <axes>?` and record the tuple. -/
def get_settle_time (s : Sys) : Sys :=
  let s := send .stlQ s
  { s with ctrl.settle_time_ms := s.dev.stl }

/-- The verification loop of `_set_settle_time`: each device-reported value
must be within the per-axis tolerance of the intended value. -/
def stlVerify : List ℚ → List ℚ → List ℚ → Bool
  | [], [], [] => true
  | tol :: tols, ti :: tis, tf :: tfs =>
      (decide (ti - tol ≤ tf) && decide (tf ≤ ti + tol)) && stlVerify tols tis tfs
  | _, _, _ => false

/-- Source `_set_settle_time` (bounds `0 <= round(t) <= max_settle_time_ms[i]`;
verification allows `tol_settle_time_ms` per axis). -/
def set_settle_time (cfg : Cfg) (settle_time_ms : List (Option ℚ)) (s : Sys) :
    Except (Err × Sys) Sys :=
  if settle_time_ms.length = cfg.axes.length then
    if settle_time_ms.all (fun v => v.isSome) then
      match procRoundCheck ((cfg.max_settle_time_ms.map (fun _ => (0 : ℚ))).zip
          cfg.max_settle_time_ms) (resolveKeep settle_time_ms s.ctrl.settle_time_ms) with
      | none => .error (.range, s)
      | some rounded =>
          let wire := rounded.map fmt6
          let s := send (.stlSet wire) s
          let s := { s with dev.stl := wire }
          let s := get_settle_time s
          if stlVerify cfg.tol_settle_time_ms rounded s.ctrl.settle_time_ms then .ok s
          else .error (.verification, s)
    else .error (.assertion, s)
  else .error (.assertion, s)

/-- The wire value `_set_precision` computes for one axis:
`'%0.6f' % (1e-6 * precision_um[i])`. -/
def precisionWire (p : ℚ) : ℚ := fmt6 ((1 / 1000000) * p)

/-- The conversion `_get_precision` applies to one device value:
`round(1e6 * p)`. -/
def precisionDecode (q : ℚ) : ℤ := pyRound (1000000 * q)

/-- Source `_get_precision`: query `PC <axes>?` and record
`tuple(round(1e6 * p) for p in precision_mm)`. -/
def get_precision (s : Sys) : Sys :=
  let s := send .prcQ s
  { s with ctrl.precision_um := s.dev.prc.map (fun q => ((precisionDecode q : ℤ) : ℚ)) }

/-- Source `_set_precision` (bounds `min <= round(p) <= max`; the wire carries
`1e-6 * p`). -/
def set_precision (cfg : Cfg) (precision_um : List (Option ℚ)) (s : Sys) :
    Except (Err × Sys) Sys :=
  if precision_um.length = cfg.axes.length then
    if precision_um.all (fun v => v.isSome) then
      match procRoundCheck (cfg.min_precision_um.zip cfg.max_precision_um)
          (resolveKeep precision_um s.ctrl.precision_um) with
      | none => .error (.range, s)
      | some rounded =>
          let wire := rounded.map precisionWire
          let s := send (.prcSet wire) s
          let s := { s with dev.prc := wire }
          let s := get_precision s
          if s.ctrl.precision_um = rounded then .ok s else .error (.verification, s)
    else .error (.assertion, s)
  else .error (.assertion, s)

/-!
## Motion controller (`_get_position`, `_finish_moving`, `move_um`)
-/

/-- Source `_counts2position`: `float(count) / factor` per axis. -/
def counts2position (enc : List ℚ) (counts : List ℤ) : List ℚ :=
  (counts.zip enc).map (fun p => (p.1 : ℚ) / p.2)

/-- Source `_position2counts`: `round(position * factor)` per axis. -/
def position2counts (enc : List ℚ) (position_um : List ℚ) : List ℤ :=
  (position_um.zip enc).map (fun p => pyRound (p.1 * p.2))

/-- Source `_get_position`: query `W <axes>` and convert counts to μm. -/
def get_position (cfg : Cfg) (s : Sys) : Sys :=
  let s := send .posQ s
  { s with ctrl.position_um := counts2position cfg.encoder_counts_per_um s.dev.posCounts }

/-- The `while True` status poll of `_finish_moving`: one `/` query per
iteration until the device answers `N`; the device answers busy `n` more
times. -/
def pollBusy : ℕ → Sys → Sys
  | 0, s => send .statusQ s
  | n + 1, s => pollBusy n (send .statusQ s)

/-- The post-move tolerance check of `_finish_moving`: every axis within
`±precision_um` of its target. -/
def tolOk : List ℚ → List ℚ → List ℚ → Bool
  | [], [], [] => true
  | p :: ps, t :: ts, pr :: prs =>
      (decide (t - pr ≤ p) && decide (p ≤ t + pr)) && tolOk ps ts prs
  | _, _, _ => false

/-- Source `_finish_moving`: no-op when idle; otherwise poll `/` until `N`, re-read
the position and assert each axis is within `±precision_um` of the recorded
target, then clear the moving flag. -/
def finish_moving (cfg : Cfg) (s : Sys) : Except (Err × Sys) Sys :=
  if s.ctrl.moving then
    let s := pollBusy s.dev.busyLeft s
    let s := { s with dev.busyLeft := 0 }
    let s := get_position cfg s
    if tolOk s.ctrl.position_um s.ctrl.target_move_um s.ctrl.precision_um then
      .ok { s with ctrl.moving := false }
    else .error (.motionTolerance, s)
  else .ok s

/-- The per-index body of `move_um`'s loop: a `None` entry resolves to the
current position (the original entry is tested again for the relative case,
so the current position is *not* added a second time); a numeric entry has
the current position added when `relative`; the resolved absolute target is
then asserted within `[min_position_um, max_position_um]`. -/
def resolveMove : List ℚ → List ℚ → List ℚ → List (Option ℚ) → Bool → Option (List ℚ)
  | p :: ps, lo :: los, hi :: his, m :: ms, relative =>
      let v := match m with
        | none => p
        | some x => if relative then p + x else x
      if lo ≤ v ∧ v ≤ hi then
        (resolveMove ps los his ms relative).map (fun r => v :: r)
      else none
  | [], [], [], [], _ => some []
  | _, _, _, _, _ => none

/-- Source `move_um(move_um, relative, block)`: finish a pending move, resolve and
range-check the targets, round to nm, send one `M` command (the echoing
device takes up exactly the commanded counts), record the Moving state and
target, and when `block` finish the move synchronously. -/
def move_um (cfg : Cfg) (targets_um : List (Option ℚ)) (relative block : Bool) (s : Sys) :
    Except (Err × Sys) Sys :=
  match finish_moving cfg s with
  | .error e => .error e
  | .ok s =>
      if targets_um.length = cfg.axes.length then
        match resolveMove s.ctrl.position_um cfg.min_position_um cfg.max_position_um
            targets_um relative with
        | none => .error (.range, s)
        | some resolved =>
            let tgt := resolved.map round3
            let counts := position2counts cfg.encoder_counts_per_um tgt
            let s := send (.moveTo counts) s
            let s := { s with dev.posCounts := counts }
            let s := { s with ctrl := { s.ctrl with moving := true, target_move_um := tgt } }
            if block then finish_moving cfg s else .ok s
      else .error (.assertion, s)

/-!
## Helper lemmas
-/

theorem resolveKeep_map_some :
    ∀ (X cur : List ℚ), cur.length = X.length → resolveKeep (X.map some) cur = X := by
  intro X
  induction X with
  | nil => intro cur _; rfl
  | cons x xs ih =>
      intro cur hlen
      cases cur with
      | nil => simp at hlen
      | cons c cs =>
          simp only [List.map_cons, resolveKeep, List.zip_cons_cons, List.map_cons,
            Option.getD_some]
          have := ih cs (by simpa using hlen)
          simpa [resolveKeep] using this

theorem procVel_eq {ms X : List ℚ}
    (h : List.Forall₂ (fun m v => 0 ≤ v ∧ v ≤ m) ms X) :
    procVel ms X = some (X.map round6) := by
  induction h with
  | nil => rfl
  | @cons m v ms vs hp _ ih =>
      simp only [procVel, if_pos hp, ih, Option.map, List.map_cons]

theorem procRoundCheck_eq {bs : List (ℚ × ℚ)} {X : List ℚ}
    (h : List.Forall₂ (fun b v => b.1 ≤ (pyRound v : ℚ) ∧ (pyRound v : ℚ) ≤ b.2) bs X) :
    procRoundCheck bs X = some (X.map (fun v => ((pyRound v : ℤ) : ℚ))) := by
  induction h with
  | nil => rfl
  | @cons b v bs vs hp _ ih =>
      simp only [procRoundCheck, if_pos hp, ih, Option.map, List.map_cons]

/-- Integer-valued bounds survive rounding: a value inside the bounds rounds
to a value inside the bounds. -/
theorem pyRound_mem_of_mem {lo hi v : ℚ} (hlo : lo.den = 1) (hhi : hi.den = 1)
    (h1 : lo ≤ v) (h2 : v ≤ hi) :
    lo ≤ (pyRound v : ℚ) ∧ (pyRound v : ℚ) ≤ hi := by
  have hl : ((lo.num : ℤ) : ℚ) = lo := by exact_mod_cast (Rat.den_eq_one_iff lo).mp hlo
  have hh : ((hi.num : ℤ) : ℚ) = hi := by exact_mod_cast (Rat.den_eq_one_iff hi).mp hhi
  constructor
  · rw [← hl] at h1 ⊢
    exact_mod_cast le_pyRound_of_le h1
  · rw [← hh] at h2 ⊢
    exact_mod_cast pyRound_le_of_le h2

theorem forall₂_rounded_of_bounds {bs : List (ℚ × ℚ)} {X : List ℚ}
    (h : List.Forall₂ (fun b v => b.1 ≤ v ∧ v ≤ b.2) bs X)
    (hint : ∀ b ∈ bs, b.1.den = 1 ∧ b.2.den = 1) :
    List.Forall₂ (fun b v => b.1 ≤ (pyRound v : ℚ) ∧ (pyRound v : ℚ) ≤ b.2) bs X := by
  induction h with
  | nil => exact .nil
  | @cons b v bs vs hp _ ih =>
      have hb := hint b (List.mem_cons_self b bs)
      exact .cons (pyRound_mem_of_mem hb.1 hb.2 hp.1 hp.2)
        (ih fun b' hb' => hint b' (List.mem_cons_of_mem _ hb'))

theorem stlVerify_self :
    ∀ {tols X : List ℚ}, tols.length = X.length → (∀ t ∈ tols, 0 ≤ t) →
      stlVerify tols X X = true := by
  intro tols
  induction tols with
  | nil =>
      intro X hlen _
      cases X with
      | nil => rfl
      | cons _ _ => simp at hlen
  | cons t ts ih =>
      intro X hlen hpos
      cases X with
      | nil => simp at hlen
      | cons x xs =>
          have ht : 0 ≤ t := hpos t (List.mem_cons_self t ts)
          simp only [stlVerify, Bool.and_eq_true, decide_eq_true_eq]
          refine ⟨⟨by linarith, by linarith⟩, ?_⟩
          exact ih (by simpa using hlen) (fun t' ht' => hpos t' (List.mem_cons_of_mem _ ht'))

theorem map_fmt6_round6 (X : List ℚ) :
    (X.map round6).map fmt6 = X.map round6 := by
  simp only [List.map_map]
  exact List.map_congr_left (fun x _ => fmt6_round6 x)

theorem map_fmt6_pyRound (X : List ℚ) :
    (X.map (fun v => ((pyRound v : ℤ) : ℚ))).map fmt6 = X.map (fun v => ((pyRound v : ℤ) : ℚ)) := by
  simp only [List.map_map]
  exact List.map_congr_left (fun x _ => fmt6_intCast (pyRound x))

/-- An integer number of micrometers survives the μm → wire → μm conversion
of the precision parameter. -/
theorem precision_roundtrip (k : ℤ) : precisionDecode (precisionWire (k : ℚ)) = k := by
  unfold precisionDecode precisionWire
  rw [fmt6_micro]
  have h : (1000000 : ℚ) * ((1 / 1000000) * (k : ℚ)) = (k : ℚ) := by ring
  rw [h, pyRound_intCast]

theorem map_precision_roundtrip (X : List ℚ) :
    ((X.map (fun v => ((pyRound v : ℤ) : ℚ))).map precisionWire).map
        (fun q => ((precisionDecode q : ℤ) : ℚ)) =
      X.map (fun v => ((pyRound v : ℤ) : ℚ)) := by
  simp only [List.map_map]
  exact List.map_congr_left (fun x _ => by
    simp only [Function.comp]
    rw [precision_roundtrip])

theorem forall₂_pyRound_close (X : List ℚ) :
    List.Forall₂ (fun g x => |g - x| ≤ 1) (X.map (fun v => ((pyRound v : ℤ) : ℚ))) X := by
  induction X with
  | nil => exact .nil
  | cons x xs ih =>
      refine .cons ?_ ih
      have := abs_pyRound_sub_le x
      linarith [this]

/-- Source `_set_velocity` on a fully specified in-bounds tuple: the call succeeds,
and the stored and re-queried velocities are the requested ones rounded to
six decimals. -/
theorem set_velocity_sound (cfg : Cfg) (s : Sys) (X : List ℚ)
    (hax : X.length = cfg.axes.length)
    (hcur : s.ctrl.velocity_mmps.length = X.length)
    (hb : List.Forall₂ (fun m v => 0 ≤ v ∧ v ≤ m) cfg.max_velocity_mmps X) :
    ∃ t, set_velocity cfg (X.map some) s = .ok t ∧
      t.ctrl.velocity_mmps = X.map round6 ∧
      (get_velocity t).ctrl.velocity_mmps = X.map round6 := by
  unfold set_velocity
  rw [if_pos (by simpa using hax), if_pos (by simp),
    resolveKeep_map_some X _ hcur, procVel_eq hb]
  simp only [get_velocity, send, map_fmt6_round6, if_true, eq_self_iff_true]
  exact ⟨_, rfl, rfl, rfl⟩

/-- Source `_set_acceleration` on a fully specified tuple whose roundings are in
bounds: the call succeeds, and the stored and re-queried ramp times are the
requested ones rounded to integers. -/
theorem set_acceleration_sound (cfg : Cfg) (s : Sys) (X : List ℚ)
    (hax : X.length = cfg.axes.length)
    (hcur : s.ctrl.acceleration_ms.length = X.length)
    (hb : List.Forall₂ (fun b v => b.1 ≤ (pyRound v : ℚ) ∧ (pyRound v : ℚ) ≤ b.2)
      (cfg.min_acceleration_ms.zip cfg.max_acceleration_ms) X) :
    ∃ t, set_acceleration cfg (X.map some) s = .ok t ∧
      t.ctrl.acceleration_ms = X.map (fun v => ((pyRound v : ℤ) : ℚ)) ∧
      (get_acceleration t).ctrl.acceleration_ms = X.map (fun v => ((pyRound v : ℤ) : ℚ)) := by
  unfold set_acceleration
  rw [if_pos (by simpa using hax), if_pos (by simp),
    resolveKeep_map_some X _ hcur, procRoundCheck_eq hb]
  simp only [get_acceleration, send, map_fmt6_pyRound, if_true, eq_self_iff_true]
  exact ⟨_, rfl, rfl, rfl⟩

/-- Source `_set_settle_time` on a fully specified tuple whose roundings are in
bounds: the call succeeds, and the stored and re-queried settle times are the
requested ones rounded to integers (which the ±tolerance verification
accepts). -/
theorem set_settle_time_sound (cfg : Cfg) (s : Sys) (X : List ℚ)
    (hax : X.length = cfg.axes.length)
    (hcur : s.ctrl.settle_time_ms.length = X.length)
    (htlen : cfg.tol_settle_time_ms.length = X.length)
    (htol : ∀ t ∈ cfg.tol_settle_time_ms, 0 ≤ t)
    (hb : List.Forall₂ (fun b v => b.1 ≤ (pyRound v : ℚ) ∧ (pyRound v : ℚ) ≤ b.2)
      ((cfg.max_settle_time_ms.map (fun _ => (0 : ℚ))).zip cfg.max_settle_time_ms) X) :
    ∃ t, set_settle_time cfg (X.map some) s = .ok t ∧
      t.ctrl.settle_time_ms = X.map (fun v => ((pyRound v : ℤ) : ℚ)) ∧
      (get_settle_time t).ctrl.settle_time_ms = X.map (fun v => ((pyRound v : ℤ) : ℚ)) := by
  unfold set_settle_time
  rw [if_pos (by simpa using hax), if_pos (by simp),
    resolveKeep_map_some X _ hcur, procRoundCheck_eq hb]
  simp only [get_settle_time, send, map_fmt6_pyRound]
  rw [if_pos (stlVerify_self (by simpa using htlen) htol)]
  exact ⟨_, rfl, rfl, rfl⟩

/-- Source `_set_precision` on a fully specified tuple whose roundings are in
bounds: the call succeeds, and the stored and re-queried precisions are the
requested ones rounded to integer micrometers. -/
theorem set_precision_sound (cfg : Cfg) (s : Sys) (X : List ℚ)
    (hax : X.length = cfg.axes.length)
    (hcur : s.ctrl.precision_um.length = X.length)
    (hb : List.Forall₂ (fun b v => b.1 ≤ (pyRound v : ℚ) ∧ (pyRound v : ℚ) ≤ b.2)
      (cfg.min_precision_um.zip cfg.max_precision_um) X) :
    ∃ t, set_precision cfg (X.map some) s = .ok t ∧
      t.ctrl.precision_um = X.map (fun v => ((pyRound v : ℤ) : ℚ)) ∧
      (get_precision t).ctrl.precision_um = X.map (fun v => ((pyRound v : ℤ) : ℚ)) := by
  unfold set_precision
  rw [if_pos (by simpa using hax), if_pos (by simp),
    resolveKeep_map_some X _ hcur, procRoundCheck_eq hb]
  have hmap : List.map ((fun q => ((precisionDecode q : ℤ) : ℚ)) ∘ precisionWire ∘
        fun v => ((pyRound v : ℤ) : ℚ)) X = List.map (fun v => ((pyRound v : ℤ) : ℚ)) X :=
    List.map_congr_left fun a _ => by
      simp only [Function.comp]
      rw [precision_roundtrip]
  simp only [get_precision, send, List.map_map, hmap, if_true, eq_self_iff_true]
  refine ⟨_, rfl, rfl, ?_⟩
  show List.map (fun q => ((precisionDecode q : ℤ) : ℚ))
      (List.map (precisionWire ∘ fun v => ((pyRound v : ℤ) : ℚ)) X) = _
  rw [List.map_map, hmap]

/-!
## Claim theorems
-/

/-- C1: for every per-axis tuple whose entries all lie within that
parameter's bounds, the set operation succeeds and the corresponding get
operation returns the tuple — exactly equal after rounding for velocity
(6 decimals), acceleration and precision (integers), and within ±1 ms per
axis for settle time — the device echoing what was written. -/
theorem spec_c1_set_then_get_roundtrip (cfg : Cfg) (s : Sys) (V A T P : List ℚ)
    (hVax : V.length = cfg.axes.length) (hVcur : s.ctrl.velocity_mmps.length = V.length)
    (hAax : A.length = cfg.axes.length) (hAcur : s.ctrl.acceleration_ms.length = A.length)
    (hTax : T.length = cfg.axes.length) (hTcur : s.ctrl.settle_time_ms.length = T.length)
    (hPax : P.length = cfg.axes.length) (hPcur : s.ctrl.precision_um.length = P.length)
    (htlen : cfg.tol_settle_time_ms.length = T.length)
    (htol : ∀ t ∈ cfg.tol_settle_time_ms, 0 ≤ t)
    (hAint : ∀ b ∈ cfg.min_acceleration_ms.zip cfg.max_acceleration_ms,
      b.1.den = 1 ∧ b.2.den = 1)
    (hTint : ∀ b ∈ (cfg.max_settle_time_ms.map (fun _ => (0 : ℚ))).zip cfg.max_settle_time_ms,
      b.1.den = 1 ∧ b.2.den = 1)
    (hPint : ∀ b ∈ cfg.min_precision_um.zip cfg.max_precision_um,
      b.1.den = 1 ∧ b.2.den = 1)
    (hV : List.Forall₂ (fun m v => 0 ≤ v ∧ v ≤ m) cfg.max_velocity_mmps V)
    (hA : List.Forall₂ (fun b v => b.1 ≤ v ∧ v ≤ b.2)
      (cfg.min_acceleration_ms.zip cfg.max_acceleration_ms) A)
    (hT : List.Forall₂ (fun b v => b.1 ≤ v ∧ v ≤ b.2)
      ((cfg.max_settle_time_ms.map (fun _ => (0 : ℚ))).zip cfg.max_settle_time_ms) T)
    (hP : List.Forall₂ (fun b v => b.1 ≤ v ∧ v ≤ b.2)
      (cfg.min_precision_um.zip cfg.max_precision_um) P) :
    (∃ t, set_velocity cfg (V.map some) s = .ok t ∧
      (get_velocity t).ctrl.velocity_mmps = V.map round6) ∧
    (∃ t, set_acceleration cfg (A.map some) s = .ok t ∧
      (get_acceleration t).ctrl.acceleration_ms = A.map (fun v => ((pyRound v : ℤ) : ℚ))) ∧
    (∃ t, set_settle_time cfg (T.map some) s = .ok t ∧
      List.Forall₂ (fun g x => |g - x| ≤ 1) (get_settle_time t).ctrl.settle_time_ms T) ∧
    (∃ t, set_precision cfg (P.map some) s = .ok t ∧
      (get_precision t).ctrl.precision_um = P.map (fun v => ((pyRound v : ℤ) : ℚ))) := by
  refine ⟨?_, ?_, ?_, ?_⟩
  · obtain ⟨t, h1, _, h3⟩ := set_velocity_sound cfg s V hVax hVcur hV
    exact ⟨t, h1, h3⟩
  · obtain ⟨t, h1, _, h3⟩ :=
      set_acceleration_sound cfg s A hAax hAcur (forall₂_rounded_of_bounds hA hAint)
    exact ⟨t, h1, h3⟩
  · obtain ⟨t, h1, _, h3⟩ :=
      set_settle_time_sound cfg s T hTax hTcur htlen htol (forall₂_rounded_of_bounds hT hTint)
    refine ⟨t, h1, ?_⟩
    rw [h3]
    exact forall₂_pyRound_close T
  · obtain ⟨t, h1, _, h3⟩ :=
      set_precision_sound cfg s P hPax hPcur (forall₂_rounded_of_bounds hP hPint)
    exact ⟨t, h1, h3⟩

/-- A two-axis configuration as `__init__` builds it: axes `('X','Y')`,
standard lead screws, ranges ±50 mm and ±25 mm. -/
def cfgXY : Cfg := mkCfg [['X'], ['Y']] [.S, .S] [-50, -25] [50, 25]

/-- A well-formed reachable state for the two-axis configuration, used as
concrete input for witnesses and counterexamples. -/
def sys0 : Sys :=
  { ctrl :=
      { velocity_mmps := [1, 1], acceleration_ms := [25, 25], settle_time_ms := [0, 0]
        precision_um := [1, 1], position_um := [0, 0], moving := false
        target_move_um := [0, 0], ttl_in_mode := .disabled, ttl_out_mode := .low
        pwm_intensity := 1, state := none }
    dev :=
      { vel := [1, 1], acc := [25, 25], stl := [0, 0]
        prc := [precisionWire 1, precisionWire 1], posCounts := [0, 0]
        ttlInCode := ['0'], ttlOutCode := ['0'], led := 1, busyLeft := 0 }
    sent := [] }

section

attribute [local semireducible] Rat.mul Rat.inv Rat.add Rat.sub Rat.ofScientific

/-- Witness for C1: the round-trip theorem applied to the two-axis standard
configuration with concrete in-bounds tuples. -/
theorem spec_c1_witness :
    (∃ t, set_velocity cfgXY ([2, 3.5].map some) sys0 = .ok t ∧
      (get_velocity t).ctrl.velocity_mmps = [2, 3.5].map round6) ∧
    (∃ t, set_acceleration cfgXY ([25.4, 999.6].map some) sys0 = .ok t ∧
      (get_acceleration t).ctrl.acceleration_ms =
        [25.4, 999.6].map (fun v => ((pyRound v : ℤ) : ℚ))) ∧
    (∃ t, set_settle_time cfgXY ([0.2, 1000].map some) sys0 = .ok t ∧
      List.Forall₂ (fun g x => |g - x| ≤ 1)
        (get_settle_time t).ctrl.settle_time_ms [0.2, 1000]) ∧
    (∃ t, set_precision cfgXY ([1.2, 1000000].map some) sys0 = .ok t ∧
      (get_precision t).ctrl.precision_um =
        [1.2, 1000000].map (fun v => ((pyRound v : ℤ) : ℚ))) :=
  spec_c1_set_then_get_roundtrip cfgXY sys0 [2, 3.5] [25.4, 999.6] [0.2, 1000] [1.2, 1000000]
    (by decide) (by decide) (by decide) (by decide) (by decide) (by decide)
    (by decide) (by decide) (by decide) (by decide) (by decide) (by decide)
    (by decide) (by decide) (by decide) (by decide) (by decide)

end

/-- C2 (refuting the claimed behaviour): every parameter set operation
asserts `type(v) is int or type(v) is float` *before* its `None`-resolution
branch, so a tuple containing an unspecified (`None`) entry fails that type
assertion instead of keeping the axis's current value. -/
theorem spec_c2_none_entry_rejected (cfg : Cfg) (s : Sys) (args : List (Option ℚ))
    (hlen : args.length = cfg.axes.length)
    (hnone : args.all (fun v => v.isSome) = false) :
    set_velocity cfg args s = .error (.assertion, s) ∧
    set_acceleration cfg args s = .error (.assertion, s) ∧
    set_settle_time cfg args s = .error (.assertion, s) ∧
    set_precision cfg args s = .error (.assertion, s) := by
  refine ⟨?_, ?_, ?_, ?_⟩ <;>
    simp only [set_velocity, set_acceleration, set_settle_time, set_precision,
      if_pos hlen, hnone, Bool.false_eq_true, if_false]

/-- Witness for C2: the four set operations each reject `(None, 3)` with the
type assertion on the two-axis configuration. -/
theorem spec_c2_witness :
    set_velocity cfgXY [none, some 3] sys0 = .error (.assertion, sys0) ∧
    set_acceleration cfgXY [none, some 3] sys0 = .error (.assertion, sys0) ∧
    set_settle_time cfgXY [none, some 3] sys0 = .error (.assertion, sys0) ∧
    set_precision cfgXY [none, some 3] sys0 = .error (.assertion, sys0) :=
  spec_c2_none_entry_rejected cfgXY sys0 [none, some 3] (by decide) (by decide)

/-- C3 as amended: a resolved value outside its per-axis bounds makes the
call fail with a range error and the state — in particular the trace of
commands written to the transport — unchanged, for the four parameter set
operations always, and for `move_um` when the controller is idle at the
call. -/
theorem spec_c3_range_error_no_write (cfg : Cfg) (s : Sys) (args : List (Option ℚ))
    (relative block : Bool)
    (hlen : args.length = cfg.axes.length)
    (hsome : args.all (fun v => v.isSome) = true) :
    (procVel cfg.max_velocity_mmps (resolveKeep args s.ctrl.velocity_mmps) = none →
      set_velocity cfg args s = .error (.range, s)) ∧
    (procRoundCheck (cfg.min_acceleration_ms.zip cfg.max_acceleration_ms)
        (resolveKeep args s.ctrl.acceleration_ms) = none →
      set_acceleration cfg args s = .error (.range, s)) ∧
    (procRoundCheck ((cfg.max_settle_time_ms.map (fun _ => (0 : ℚ))).zip
          cfg.max_settle_time_ms) (resolveKeep args s.ctrl.settle_time_ms) = none →
      set_settle_time cfg args s = .error (.range, s)) ∧
    (procRoundCheck (cfg.min_precision_um.zip cfg.max_precision_um)
        (resolveKeep args s.ctrl.precision_um) = none →
      set_precision cfg args s = .error (.range, s)) ∧
    (s.ctrl.moving = false →
      resolveMove s.ctrl.position_um cfg.min_position_um cfg.max_position_um args relative =
        none →
      move_um cfg args relative block s = .error (.range, s)) := by
  refine ⟨?_, ?_, ?_, ?_, ?_⟩
  · intro h
    simp only [set_velocity, if_pos hlen, hsome, if_true, h]
  · intro h
    simp only [set_acceleration, if_pos hlen, hsome, if_true, h]
  · intro h
    simp only [set_settle_time, if_pos hlen, hsome, if_true, h]
  · intro h
    simp only [set_precision, if_pos hlen, hsome, if_true, h]
  · intro hidle h
    simp only [move_um, finish_moving, hidle, Bool.false_eq_true, if_false, if_pos hlen, h]

section

attribute [local semireducible] Rat.mul Rat.inv Rat.add Rat.sub Rat.ofScientific

/-- Witness for the amended C3: an out-of-range request fails every
operation with a range error and no transport write on the idle two-axis
state. -/
theorem spec_c3_witness :
    (procVel cfgXY.max_velocity_mmps
        (resolveKeep [some 1000000000, some 0] sys0.ctrl.velocity_mmps) = none →
      set_velocity cfgXY [some 1000000000, some 0] sys0 = .error (.range, sys0)) ∧
    (procRoundCheck (cfgXY.min_acceleration_ms.zip cfgXY.max_acceleration_ms)
        (resolveKeep [some 1000000000, some 0] sys0.ctrl.acceleration_ms) = none →
      set_acceleration cfgXY [some 1000000000, some 0] sys0 = .error (.range, sys0)) ∧
    (procRoundCheck ((cfgXY.max_settle_time_ms.map (fun _ => (0 : ℚ))).zip
          cfgXY.max_settle_time_ms)
        (resolveKeep [some 1000000000, some 0] sys0.ctrl.settle_time_ms) = none →
      set_settle_time cfgXY [some 1000000000, some 0] sys0 = .error (.range, sys0)) ∧
    (procRoundCheck (cfgXY.min_precision_um.zip cfgXY.max_precision_um)
        (resolveKeep [some 1000000000, some 0] sys0.ctrl.precision_um) = none →
      set_precision cfgXY [some 1000000000, some 0] sys0 = .error (.range, sys0)) ∧
    (sys0.ctrl.moving = false →
      resolveMove sys0.ctrl.position_um cfgXY.min_position_um cfgXY.max_position_um
          [some 1000000000, some 0] false = none →
      move_um cfgXY [some 1000000000, some 0] false true sys0 = .error (.range, sys0)) :=
  spec_c3_range_error_no_write cfgXY sys0 [some 1000000000, some 0] false true
    (by decide) (by decide)

/-- The idle two-axis state with a pending (already physically completed)
non-blocking move still marked Moving. -/
def sysMoving : Sys := { sys0 with ctrl.moving := true }

/-- Counterexample to C3 as stated: called while still Moving, `move_um`
with an out-of-range target *does* write to the transport (the status poll
and position query that complete the pending move) before failing with the
range error. -/
theorem spec_c3_counterexample :
    move_um cfgXY [some 1000000000, some 0] false true sysMoving =
      .error (.range, { sys0 with sent := [.statusQ, .posQ] }) ∧
    ({ sys0 with sent := [Cmd.statusQ, Cmd.posQ] } : Sys).sent ≠ sysMoving.sent := by
  constructor
  · decide
  · decide

end


/-- C10: when the controller is idle, a `move_um` call that fails its
per-axis range validation returns the range error with the controller state
exactly as before the call — the moving flag, `position_um`, the recorded
target, and every other field are unchanged. -/
theorem spec_c10_failed_move_no_mutation (cfg : Cfg) (s : Sys) (args : List (Option ℚ))
    (relative block : Bool)
    (hidle : s.ctrl.moving = false)
    (hlen : args.length = cfg.axes.length)
    (hfail : resolveMove s.ctrl.position_um cfg.min_position_um cfg.max_position_um
      args relative = none) :
    move_um cfg args relative block s = .error (.range, s) := by
  simp only [move_um, finish_moving, hidle, Bool.false_eq_true, if_false, if_pos hlen, hfail]

section

attribute [local semireducible] Rat.mul Rat.inv Rat.add Rat.sub Rat.ofScientific

/-- Witness for C10: an out-of-range absolute move on the idle two-axis
state leaves the state untouched. -/
theorem spec_c10_witness :
    move_um cfgXY [some 1000000000, some 0] false false sys0 = .error (.range, sys0) :=
  spec_c10_failed_move_no_mutation cfgXY sys0 [some 1000000000, some 0] false false
    (by decide) (by decide) (by decide)

end

/-- C9: in the target-resolution loop of a relative `move_um`, an
unspecified (`None`) entry resolves to exactly the current position of that
axis — the current position is added only to numeric entries, never a second
time to an already-resolved unspecified entry. -/
theorem spec_c9_relative_none_keeps_position :
    ∀ (pos lo hi : List ℚ) (args : List (Option ℚ)) (tgt : List ℚ),
      resolveMove pos lo hi args true = some tgt →
      ∀ i : ℕ, args[i]? = some none → tgt[i]? = pos[i]? := by
  intro pos lo hi args
  induction args generalizing pos lo hi with
  | nil =>
      intro tgt h i hargs
      simp at hargs
  | cons a as ih =>
      intro tgt h i hargs
      cases pos with
      | nil => simp [resolveMove] at h
      | cons p ps =>
        cases lo with
        | nil => simp [resolveMove] at h
        | cons l ls =>
          cases hi with
          | nil => simp [resolveMove] at h
          | cons u us =>
            cases a with
            | none =>
                simp only [resolveMove] at h
                by_cases hc : l ≤ p ∧ p ≤ u
                · rw [if_pos hc, Option.map_eq_some'] at h
                  obtain ⟨rest, hrest, htg⟩ := h
                  subst htg
                  cases i with
                  | zero => simp
                  | succ n =>
                      simp only [List.getElem?_cons_succ] at hargs ⊢
                      exact ih ps ls us rest hrest n hargs
                · rw [if_neg hc] at h
                  simp at h
            | some x =>
                simp only [resolveMove, if_true] at h
                by_cases hc : l ≤ p + x ∧ p + x ≤ u
                · rw [if_pos hc, Option.map_eq_some'] at h
                  obtain ⟨rest, hrest, htg⟩ := h
                  subst htg
                  cases i with
                  | zero => simp at hargs
                  | succ n =>
                      simp only [List.getElem?_cons_succ] at hargs ⊢
                      exact ih ps ls us rest hrest n hargs
                · rw [if_neg hc] at h
                  simp at h

section

attribute [local semireducible] Rat.mul Rat.inv Rat.add Rat.sub Rat.ofScientific

/-- Witness for C9: with current position `(5, 7)`, the relative request
`(None, 1)` resolves to target `(5, 8)` — the unspecified axis keeps
exactly the current position. -/
theorem spec_c9_witness :
    resolveMove [5, 7] [-10, -10] [10, 10] [none, some 1] true = some [5, 8] ∧
    ([5, 8] : List ℚ)[0]? = ([5, 7] : List ℚ)[0]? :=
  ⟨by decide,
    spec_c9_relative_none_keeps_position [5, 7] [-10, -10] [10, 10] [none, some 1]
      [5, 8] (by decide) 0 (by decide)⟩

end

/-- General behaviour of `set_pwm_state` against the echoing device: it
always succeeds, writes exactly input-set, input-query, output-set,
output-query in that order, stores the table's register pair on the device
and the controller, and records the named state. -/
theorem set_pwm_state_ok (st : PwmState) (s : Sys) :
    ∃ t, set_pwm_state st s = .ok t ∧
      t.ctrl.ttl_in_mode = (stateTable st).1 ∧
      t.ctrl.ttl_out_mode = (stateTable st).2 ∧
      t.dev.ttlInCode = ttlInMode2code (stateTable st).1 ∧
      t.dev.ttlOutCode = ttlOutMode2code (stateTable st).2 ∧
      t.ctrl.state = some st ∧
      t.sent = s.sent ++ [.ttlInSet (ttlInMode2code (stateTable st).1), .ttlInQ,
        .ttlOutSet (ttlOutMode2code (stateTable st).2), .ttlOutQ] := by
  cases st <;>
    exact ⟨_, rfl, rfl, rfl, rfl, rfl, rfl, by simp [send]⟩

/-- Re-querying the input register returns the mode whose code the device
holds. -/
theorem get_ttl_in_mode_ok (s : Sys) (m : TtlInMode)
    (h : s.dev.ttlInCode = ttlInMode2code m) :
    ∃ u, get_ttl_in_mode s = .ok (u, m) := by
  dsimp only [get_ttl_in_mode, send]
  rw [h]
  cases m <;> exact ⟨_, rfl⟩

/-- Re-querying the output register returns the mode whose code the device
holds. -/
theorem get_ttl_out_mode_ok (s : Sys) (m : TtlOutMode)
    (h : s.dev.ttlOutCode = ttlOutMode2code m) :
    ∃ u, get_ttl_out_mode s = .ok (u, m) := by
  dsimp only [get_ttl_out_mode, send]
  rw [h]
  cases m <;> exact ⟨_, rfl⟩

/-- C4: for each of the four named illumination states, `set_pwm_state`
writes and verifies exactly the register pair of the fixed table — input
mode first, then output mode — and re-querying both TTL registers afterwards
reproduces the table row. -/
theorem spec_c4_set_state_reproduces_table (st : PwmState) (s : Sys) :
    ∃ t, set_pwm_state st s = .ok t ∧
      t.ctrl.ttl_in_mode = (stateTable st).1 ∧
      t.ctrl.ttl_out_mode = (stateTable st).2 ∧
      t.ctrl.state = some st ∧
      t.sent = s.sent ++ [.ttlInSet (ttlInMode2code (stateTable st).1), .ttlInQ,
        .ttlOutSet (ttlOutMode2code (stateTable st).2), .ttlOutQ] ∧
      (∃ u, get_ttl_in_mode t = .ok (u, (stateTable st).1)) ∧
      (∃ u, get_ttl_out_mode t = .ok (u, (stateTable st).2)) := by
  obtain ⟨t, hok, hin, hout, hdin, hdout, hst, hsent⟩ := set_pwm_state_ok st s
  exact ⟨t, hok, hin, hout, hst, hsent,
    get_ttl_in_mode_ok t _ hdin, get_ttl_out_mode_ok t _ hdout⟩

/-- C5: `close` forces the illumination state to `off` whenever the recorded
state is not already `off` (including the initial unset state), so afterwards
both TTL registers hold the off configuration — provided a recorded `off`
state truthfully reflects off registers, the invariant every reachable state
satisfies. -/
theorem spec_c5_close_forces_off (s : Sys)
    (hinv : s.ctrl.state = some .off →
      s.dev.ttlInCode = ttlInMode2code .disabled ∧ s.dev.ttlOutCode = ttlOutMode2code .low) :
    ∃ t, close s = .ok t ∧
      t.dev.ttlInCode = ttlInMode2code .disabled ∧
      t.dev.ttlOutCode = ttlOutMode2code .low ∧
      t.ctrl.state = some .off := by
  unfold close
  by_cases h : s.ctrl.state = some .off
  · rw [if_neg (by simp [h])]
    exact ⟨s, rfl, (hinv h).1, (hinv h).2, h⟩
  · rw [if_pos (by simp [h])]
    obtain ⟨t, hok, _, _, hdin, hdout, hst, _⟩ := set_pwm_state_ok .off s
    exact ⟨t, hok, hdin, hdout, hst⟩

/-- Witness for C5: closing from the initial unset state (registers already
low from construction) leaves both TTL registers off. -/
theorem spec_c5_witness :
    ∃ t, close sys0 = .ok t ∧
      t.dev.ttlInCode = ttlInMode2code .disabled ∧
      t.dev.ttlOutCode = ttlOutMode2code .low ∧
      t.ctrl.state = some .off :=
  spec_c5_close_forces_off sys0 (by intro h; exact absurd h (by decide))

/-- C6: a decoded query-with-axis-values response is returned only when the
sequence of returned axis identifiers equals the requested axis sequence in
membership and order; any response whose identifier sequence differs is a
protocol error, never reordered or tolerated. -/
theorem spec_c6_axis_sequence_checked (axes : List (List Char)) (resp : List Char) :
    (∀ vals, parseAxesResp axes resp = .ok vals →
      ∃ pairs, (pyWords resp).mapM parseToken = some pairs ∧
        pairs.map Prod.fst = axes ∧ vals = pairs.map Prod.snd) ∧
    (∀ pairs, (pyWords resp).mapM parseToken = some pairs →
      pairs.map Prod.fst ≠ axes →
      parseAxesResp axes resp = .error .protocol) := by
  constructor
  · intro vals h
    unfold parseAxesResp at h
    cases hm : (pyWords resp).mapM parseToken with
    | none =>
        simp only [hm] at h
        exact absurd h (by simp)
    | some pairs =>
        simp only [hm] at h
        by_cases hax : pairs.map Prod.fst = axes
        · rw [if_pos hax] at h
          injection h with h
          exact ⟨pairs, rfl, hax, h.symm⟩
        · rw [if_neg hax] at h
          exact absurd h (by simp)
  · intro pairs hm hax
    unfold parseAxesResp
    simp only [hm]
    rw [if_neg hax]

section

attribute [local semireducible] Rat.mul Rat.inv Rat.add Rat.sub Rat.ofScientific

/-- Witness for C6: the response `X=1.000000 Y=2.000000` decodes to `(1, 2)`
for the axis sequence `('X','Y')`, and the same response for the requested
sequence `('Y','X')` is a protocol error (axis order mismatch). -/
theorem spec_c6_witness :
    (∃ pairs, (pyWords "X=1.000000 Y=2.000000".toList).mapM parseToken = some pairs ∧
      pairs.map Prod.fst = [['X'], ['Y']] ∧ ([1, 2] : List ℚ) = pairs.map Prod.snd) ∧
    parseAxesResp [['Y'], ['X']] "X=1.000000 Y=2.000000".toList = .error .protocol :=
  ⟨(spec_c6_axis_sequence_checked [['X'], ['Y']] "X=1.000000 Y=2.000000".toList).1
      [1, 2] (by decide),
    (spec_c6_axis_sequence_checked [['Y'], ['X']] "X=1.000000 Y=2.000000".toList).2
      [(['X'], 1), (['Y'], 2)] (by decide) (by decide)⟩

end

/-- C7: `set_pwm_intensity` accepts every integer from 1 to 99 inclusive —
the set succeeds and the intensity query then returns the value — and for
any integer outside that range it fails with a range error without writing
any command to the transport. -/
theorem spec_c7_intensity_range (v : ℤ) (s : Sys) :
    (1 ≤ v ∧ v ≤ 99 →
      ∃ t, set_pwm_intensity v s = .ok t ∧ t.ctrl.pwm_intensity = v ∧
        (get_pwm_intensity t).2 = v) ∧
    (v < 1 ∨ 99 < v → set_pwm_intensity v s = .error (.range, s)) := by
  constructor
  · intro h
    unfold set_pwm_intensity
    rw [if_pos h]
    dsimp only [get_pwm_intensity, send]
    rw [if_pos rfl]
    exact ⟨_, rfl, rfl, rfl⟩
  · intro h
    unfold set_pwm_intensity
    rw [if_neg (by omega)]

/-- Witness for C7: `set_intensity(50)` succeeds and the query returns 50;
`set_intensity(150)` is a range error with no wire command. -/
theorem spec_c7_witness :
    (∃ t, set_pwm_intensity 50 sys0 = .ok t ∧ t.ctrl.pwm_intensity = 50 ∧
      (get_pwm_intensity t).2 = 50) ∧
    set_pwm_intensity 150 sys0 = .error (.range, sys0) :=
  ⟨(spec_c7_intensity_range 50 sys0).1 (by decide),
    (spec_c7_intensity_range 150 sys0).2 (by decide)⟩

/-- The precision wire encoding as the spec's words describe it for C8:
`p` μm is said to be sent as `p/1000` (device units mm). -/
def precisionWireSpec (p : ℚ) : ℚ := p / 1000

/-- The precision decoding as the spec's words describe it for C8: a device
value `q` (said to be mm) is converted back as `round(1000 * q)` μm. -/
def precisionDecodeSpec (q : ℚ) : ℤ := pyRound (1000 * q)

section

attribute [local semireducible] Rat.mul Rat.inv Rat.add Rat.sub Rat.ofScientific

/-- Counterexample to C8 as stated: for a precision of 1 μm the code's wire
value is `1e-6`, not the `1/1000` the millimetre claim requires, and the
spec's decoding applied to the code's wire value does not return 1 μm. -/
theorem spec_c8_counterexample :
    precisionWire 1 ≠ precisionWireSpec 1 ∧
    precisionDecodeSpec (precisionWire 1) ≠ 1 := by
  constructor
  · decide
  · decide

end

/-- C8 as amended: the precision parameter is exchanged with a scale factor
of 10⁶, not 10³ — setting `p` μm encodes the wire value `p * 1e-6` in the
`PC` command, and a decoded device value `q` converts back to
`round(1e6 * q)` μm, which round-trips every integer micrometer value. -/
theorem spec_c8_amended_micro_scale (p : ℤ) :
    precisionWire (p : ℚ) = (p : ℚ) / 1000000 ∧
    precisionDecode (precisionWire (p : ℚ)) = p := by
  constructor
  · unfold precisionWire
    rw [fmt6_micro]
    ring
  · exact precision_roundtrip p
